import Mathlib

/-!
# Verification of the bubble-matching game core (GeminiSlingshot)

Shallow embedding of the game simulation and targeting engine from
`components/GeminiSlingshot.tsx` and `services/geminiService.ts`:
hex-grid geometry, adjacency, match resolution, nearest-empty-cell
snapping, line-of-sight sampling, the local fallback heuristic, and
advisory-response validation.

JavaScript numbers are idealised as exact rationals.  Because the
kernel cannot evaluate Mathlib's `Rat` division (it is defined by
well-founded recursion), the embedded code computes with `Q`, an
unreduced fraction type (integer numerator, positive integer
denominator) whose arithmetic and comparisons are kernel-computable;
`Q.toRat` maps it to `ℚ` and the bridge lemmas below show the order
and arithmetic agree.  Square roots are never needed as values: the
source only compares distances (`Math.sqrt` is strictly monotone, so
`d1 < d2 ↔ d1² < d2²`) and takes `Math.ceil` of a distance quotient,
which is characterised sqrt-free as a least integer.
-/

namespace Goosl

/-- Exact rational: numerator over a positive denominator, not reduced.
Kernel-computable stand-in for JS float arithmetic. -/
structure Q where
  n : ℤ
  d : ℤ
  pos : 0 < d

instance : DecidableEq Q := fun x y =>
  decidable_of_iff (x.n = y.n ∧ x.d = y.d) (by cases x; cases y; simp)

def Q.ofInt (k : ℤ) : Q := ⟨k, 1, one_pos⟩

def Q.ofNat (k : ℕ) : Q := ⟨k, 1, one_pos⟩

def Q.add (x y : Q) : Q := ⟨x.n * y.d + y.n * x.d, x.d * y.d, mul_pos x.pos y.pos⟩

def Q.mul (x y : Q) : Q := ⟨x.n * y.n, x.d * y.d, mul_pos x.pos y.pos⟩

def Q.neg (x : Q) : Q := ⟨-x.n, x.d, x.pos⟩

def Q.sub (x y : Q) : Q := x.add y.neg

/-- Total division; all uses in the embedded code have a positive divisor. -/
def Q.div (x y : Q) : Q :=
  if h : 0 < y.n then ⟨x.n * y.d, x.d * y.n, mul_pos x.pos h⟩
  else ⟨0, 1, one_pos⟩

def Q.le (x y : Q) : Prop := x.n * y.d ≤ y.n * x.d

def Q.lt (x y : Q) : Prop := x.n * y.d < y.n * x.d

instance (x y : Q) : Decidable (Q.le x y) := by unfold Q.le; infer_instance

instance (x y : Q) : Decidable (Q.lt x y) := by unfold Q.lt; infer_instance

/-- Semantic value of a `Q` in Mathlib's rationals. -/
def Q.toRat (x : Q) : ℚ := (x.n : ℚ) / (x.d : ℚ)

instance : Add Q := ⟨Q.add⟩

instance : Mul Q := ⟨Q.mul⟩

instance : Sub Q := ⟨Q.sub⟩

instance : Neg Q := ⟨Q.neg⟩

instance : Div Q := ⟨Q.div⟩

/-! ## Colors and scoring table (`COLOR_CONFIG`, `COLOR_KEYS`) -/

inductive BubbleColor where
  | red | blue | green | yellow | purple | orange
  deriving DecidableEq, Repr

open BubbleColor

/-- `COLOR_CONFIG[c].points`. -/
def colorPoints : BubbleColor → ℕ
  | red => 100
  | blue => 150
  | green => 200
  | yellow => 250
  | purple => 300
  | orange => 500

/-- `COLOR_CONFIG[c].label` (Hangul display word). -/
def colorLabel : BubbleColor → String
  | red => "사과"
  | blue => "버스"
  | green => "기차"
  | yellow => "사자"
  | purple => "포도"
  | orange => "오렌지"

def COLOR_KEYS : List BubbleColor := [red, blue, green, yellow, purple, orange]

/-! ## Layout constants -/

def GRID_COLS : ℕ := 16

def GRID_ROWS : ℕ := 6

def BUBBLE_RADIUS : Q := Q.ofNat 36

/-- `BUBBLE_RADIUS * 1.8`, the inflated collision radius. -/
def collideRadius : Q := BUBBLE_RADIUS * ⟨9, 5, by norm_num⟩

/-! ## Bubbles and grid geometry -/

structure Bubble where
  id : ℕ
  row : ℕ
  col : ℕ
  x : Q
  y : Q
  color : BubbleColor
  active : Bool
  deriving DecidableEq

/-- Number of columns in row `r`: odd rows have `GRID_COLS - 1`. -/
def colsInRow (r : ℕ) : ℕ := if r % 2 ≠ 0 then GRID_COLS - 1 else GRID_COLS

/-- `getBubblePos(row, col, width)`.  `rowHeight` abstracts the source's
`ROW_HEIGHT = BUBBLE_RADIUS * Math.sqrt(3)` (irrational, hence kept as a
parameter; no claim depends on its value). -/
def getBubblePos (rowHeight w : Q) (row col : ℕ) : Q × Q :=
  let xOffset : Q := (w - Q.ofNat (GRID_COLS * 36 * 2)) / Q.ofNat 2 + BUBBLE_RADIUS
  let x : Q := xOffset + Q.ofNat col * (BUBBLE_RADIUS * Q.ofNat 2) +
    (if row % 2 ≠ 0 then BUBBLE_RADIUS else Q.ofNat 0)
  let y : Q := BUBBLE_RADIUS + Q.ofNat row * rowHeight
  (x, y)

/-- Squared Euclidean distance (the source compares `Math.sqrt` values;
`sqrt` is strictly monotone, so all comparisons are done on squares). -/
def distSq (p q : Q × Q) : Q :=
  (p.1 - q.1) * (p.1 - q.1) + (p.2 - q.2) * (p.2 - q.2)

/-- `isNeighbor(a, b)` — the hex-adjacency rule. -/
def isNeighbor (a b : Bubble) : Bool :=
  let dr : ℤ := (b.row : ℤ) - (a.row : ℤ)
  let dc : ℤ := (b.col : ℤ) - (a.col : ℤ)
  if 1 < dr.natAbs then false
  else if dr = 0 then dc.natAbs == 1
  else if a.row % 2 ≠ 0 then dc == 0 || dc == 1
  else dc == -1 || dc == 0

/-! ## Match-find (`checkMatches` traversal)

The source's `while (toCheck.length > 0)` loop, embedded with explicit
fuel (structural recursion, so the kernel can evaluate it); the fuel
chosen in `findMatches` is proved sufficient below.  The JS array used
as a stack (`pop` from the end, `push(...neighbors)` at the end) is
represented head-as-top, so pushing appends `neighbors.reverse` at the
head. -/

def matchLoop (F : List Bubble) (tc : BubbleColor) :
    ℕ → List Bubble → List ℕ → List Bubble → List Bubble
  | 0, _, _, ms => ms
  | _ + 1, [], _, ms => ms
  | fuel + 1, current :: rest, visited, ms =>
    if current.id ∈ visited then
      matchLoop F tc fuel rest visited ms
    else if current.color = tc then
      let visited1 := current.id :: visited
      let neighbors := F.filter fun b =>
        b.active && !(List.contains visited1 b.id) && isNeighbor current b
      matchLoop F tc fuel (neighbors.reverse ++ rest) visited1 (ms ++ [current])
    else
      matchLoop F tc fuel rest (current.id :: visited) ms

/-- The traversal part of `checkMatches(startBubble)`: the connected
same-color component collected by the worklist loop. -/
def findMatches (F : List Bubble) (startBubble : Bubble) : List Bubble :=
  matchLoop F startBubble.color ((F.length + 1) * (F.length + 1) + 2) [startBubble] [] []

/-- `checkMatches(startBubble)` after the traversal: deactivate and score
when the component has size ≥ 3.  The source mutates the matched bubbles
in place (`b.active = false`) and accumulates `points += basePoints` per
match; with ids as identity this is the map below and
`matches.length * basePoints`.  `Math.floor(points * 1.5)` is
`points * 3 / 2` in ℕ.  The returned `Option String` is the celebration
word (`setCelebrationWord`), `none` when no match fired. -/
def checkMatches (F : List Bubble) (score : ℕ) (startBubble : Bubble) :
    List Bubble × ℕ × Option String :=
  if 3 ≤ (findMatches F startBubble).length then
    (F.map fun b =>
        if b.id ∈ (findMatches F startBubble).map Bubble.id
        then { b with active := false } else b,
      score +
        (if 3 < (findMatches F startBubble).length
         then (findMatches F startBubble).length * colorPoints startBubble.color * 3 / 2
         else (findMatches F startBubble).length * colorPoints startBubble.color),
      some (colorLabel startBubble.color))
  else
    (F, score, none)

/-- One hop of the traversal: from a bubble of the target color to an
active neighbour stored in the field. -/
def matchStep (F : List Bubble) (tc : BubbleColor) (a b : Bubble) : Prop :=
  a.color = tc ∧ b ∈ F ∧ b.active = true ∧ isNeighbor a b = true

/-- Reachability through same-color active bubbles, as in the spec's
cluster definition. -/
def MatchReach (F : List Bubble) (tc : BubbleColor) (seed b : Bubble) : Prop :=
  Relation.ReflTransGen (matchStep F tc) seed b

/-- Ids occurring in the field or the stack that are not yet visited. -/
def unseen (F toCheck : List Bubble) (visited : List ℕ) : Finset ℕ :=
  ((F ++ toCheck).map Bubble.id).toFinset \ visited.toFinset

/-- Termination measure for the worklist loop. -/
def matchMeasure (F toCheck : List Bubble) (visited : List ℕ) : ℕ :=
  (unseen F toCheck visited).card * (F.length + 1) + toCheck.length

/-- Loop invariant for `matchLoop`. -/
structure MatchInv (F : List Bubble) (tc : BubbleColor) (seed : Bubble)
    (toCheck : List Bubble) (visited : List ℕ) (ms : List Bubble) : Prop where
  sound : ∀ m ∈ ms, m.color = tc ∧ m.id ∈ visited ∧ MatchReach F tc seed m
  pending : ∀ x ∈ toCheck, MatchReach F tc seed x
  frontier : ∀ b ∈ F, b.active = true → ∀ m ∈ ms, isNeighbor m b = true →
    b.id ∈ visited ∨ b ∈ toCheck
  visitedMatched : ∀ i ∈ visited, ∀ b ∈ F, b.id = i → b.color = tc → b ∈ ms
  stackOk : ∀ x ∈ toCheck, x ∈ F ∧ x.active = true
  nodup : (ms.map Bubble.id).Nodup

/-! ## Nearest-empty-cell snap (collision handling in `onResults`) -/

/-- The scanned cells: rows `[0, GRID_ROWS + 5)`, row-major, odd rows one
column short. -/
def cellList : List (ℕ × ℕ) :=
  (List.range (GRID_ROWS + 5)).flatMap fun r =>
    (List.range (colsInRow r)).map fun c => (r, c)

/-- `bubbles.current.some(b => b.active && b.row === r && b.col === c)`. -/
def occupiedCell (F : List Bubble) (r c : ℕ) : Bool :=
  F.any fun b => b.active && b.row == r && b.col == c

/-- One iteration of the snap scan: skip occupied cells, keep the
strictly closest free cell seen so far (`none` plays `bestDist = Infinity`,
first cell wins ties as in the source's strict `<`). -/
def snapStep (F : List Bubble) (rowHeight w : Q) (p : Q × Q)
    (acc : Option (ℕ × ℕ × Q × Q × Q)) (cell : ℕ × ℕ) : Option (ℕ × ℕ × Q × Q × Q) :=
  let pos := getBubblePos rowHeight w cell.1 cell.2
  if occupiedCell F cell.1 cell.2 then acc
  else
    let d := distSq p pos
    match acc with
    | none => some (cell.1, cell.2, pos.1, pos.2, d)
    | some best => if Q.lt d best.2.2.2.2 then some (cell.1, cell.2, pos.1, pos.2, d) else acc

def snapScan (F : List Bubble) (rowHeight w : Q) (p : Q × Q) :
    Option (ℕ × ℕ × Q × Q × Q) :=
  cellList.foldl (snapStep F rowHeight w p) none

/-- The chosen placement `(bestRow, bestCol, bestX, bestY)`; the source's
initial values `0, 0, 0, 0` survive only if every cell is occupied. -/
def snapCell (F : List Bubble) (rowHeight w : Q) (p : Q × Q) : ℕ × ℕ × Q × Q :=
  match snapScan F rowHeight w p with
  | none => (0, 0, Q.ofNat 0, Q.ofNat 0)
  | some (r, c, x, y, _) => (r, c, x, y)

/-- The new bubble appended on collision (`bubbles.current.push(newBubble)`);
`newId` abstracts the timestamped id string. -/
def placeBubble (F : List Bubble) (rowHeight w : Q) (p : Q × Q) (color : BubbleColor)
    (newId : ℕ) : List Bubble :=
  let s := snapCell F rowHeight w p
  F ++ [⟨newId, s.1, s.2.1, s.2.2.1, s.2.2.2, color, true⟩]

/-- Invariant of the snap scan relative to the already-scanned cells. -/
def SnapInv (F : List Bubble) (rowHeight w : Q) (p : Q × Q)
    (seen : List (ℕ × ℕ)) : Option (ℕ × ℕ × Q × Q × Q) → Prop
  | none => ∀ cell ∈ seen, occupiedCell F cell.1 cell.2 = true
  | some (r, c, x, y, d) =>
      (r, c) ∈ seen ∧ occupiedCell F r c = false ∧
      (x, y) = getBubblePos rowHeight w r c ∧
      d = distSq p (getBubblePos rowHeight w r c) ∧
      ∀ cell ∈ seen, occupiedCell F cell.1 cell.2 = false →
        d.toRat ≤ (distSq p (getBubblePos rowHeight w cell.1 cell.2)).toRat

/-! ## Line-of-sight check (`isPathClear`)

`steps = Math.ceil(distance / (BUBBLE_RADIUS / 2))` with
`distance = sqrt(d2)` is characterised sqrt-free: it is the least
`n : ℕ` with `d2 ≤ (18 n)² = 324 n²` (both sides non-negative, so
`n ≥ sqrt(d2)/18 ↔ 324 n² ≥ d2`). -/

/-- Linear search for the least `n ≥ start` with `d2 ≤ 324 n²`. -/
def leastStepsAux (d2 : Q) : ℕ → ℕ → ℕ
  | 0, n => n
  | fuel + 1, n =>
    if Q.le d2 (Q.ofNat (324 * (n * n))) then n else leastStepsAux d2 fuel (n + 1)

/-- `Math.ceil(sqrt(d2) / 18)` for `d2 ≥ 0`. -/
def sampleSteps (d2 : Q) : ℕ := leastStepsAux d2 (d2.n.toNat + 2) 0

/-- The sampled points: `i = 1, …, steps - 3` (the source's
`for (let i = 1; i < steps - 2; i++)`), each at parameter `t = i / steps`
along the segment. -/
def samplePoints (anchor target : Q × Q) : List (Q × Q) :=
  (List.range' 1 (sampleSteps (distSq anchor target) - 3)).map fun i =>
    (anchor.1 + (target.1 - anchor.1) *
        (Q.ofNat i / Q.ofNat (sampleSteps (distSq anchor target))),
      anchor.2 + (target.2 - anchor.2) *
        (Q.ofNat i / Q.ofNat (sampleSteps (distSq anchor target))))

/-- `isPathClear(target)`: no sampled point comes within
`BUBBLE_RADIUS * 1.8` of an active bubble other than the target. -/
def isPathClear (target : Bubble) (anchor : Q × Q) (F : List Bubble) : Bool :=
  !((samplePoints anchor (target.x, target.y)).any fun pt =>
    F.any fun b => b.active && !(b.id == target.id) &&
      decide (Q.lt (distSq pt (b.x, b.y)) (collideRadius * collideRadius)))

/-! ## Advisory service (`geminiService.ts`): fallback heuristic and
response validation -/

structure TargetCandidate where
  id : ℕ
  color : String
  size : ℕ
  row : ℕ
  col : ℕ
  pointsPerBubble : ℕ
  description : String
  deriving DecidableEq

/-- The sort comparator `(scoreB - scoreA) || (a.row - b.row)` as the
order "may come first": higher `size × points` first, ties by smaller
row. -/
def tcBefore (a b : TargetCandidate) : Prop :=
  b.size * b.pointsPerBubble < a.size * a.pointsPerBubble ∨
    (a.size * a.pointsPerBubble = b.size * b.pointsPerBubble ∧ a.row ≤ b.row)

instance : DecidableRel tcBefore := fun a b => by unfold tcBefore; infer_instance

instance : IsTotal TargetCandidate tcBefore :=
  ⟨by intro a b; unfold tcBefore; omega⟩

instance : IsTrans TargetCandidate tcBefore :=
  ⟨by intro a b c; unfold tcBefore; omega⟩

/-- `COLOR_LABELS` of the service module. -/
def advisoryLabel : String → Option String
  | "red" => some "사과 (Apple)"
  | "blue" => some "버스 (Bus)"
  | "green" => some "기차 (Train)"
  | "yellow" => some "사자 (Lion)"
  | "purple" => some "포도 (Grape)"
  | "orange" => some "오렌지 (Orange)"
  | _ => none

/-- ASCII lowercasing, as `toLowerCase()` acts on the color names used
here (kernel-computable stand-in for `String.toLower`). -/
def charLower (c : Char) : Char :=
  if 65 ≤ c.toNat ∧ c.toNat ≤ 90 then Char.ofNat (c.toNat + 32) else c

def strLower (s : String) : String := ⟨s.data.map charLower⟩

structure StrategicHint where
  message : String
  rationale : Option String
  targetRow : Option ℚ
  targetCol : Option ℚ
  recommendedColor : Option String
  deriving DecidableEq

/-- `getBestLocalTarget`: sort by total potential score then height and
take the first element (the source checks `validTargets.length > 0`;
sorting preserves length, so matching on the sorted list is the same
test). -/
def getBestLocalTarget (msg : String) (validTargets : List TargetCandidate) : StrategicHint :=
  match List.insertionSort tcBefore validTargets with
  | [] =>
      { message := msg, rationale := some "No valid clusters found to target.",
        targetRow := none, targetCol := none, recommendedColor := none }
  | best :: _ =>
      { message := "[" ++ (advisoryLabel best.color).getD best.color.toUpper ++ "]를 맞춰보세요!",
        rationale := some "Selected based on highest potential cluster score available locally.",
        targetRow := some best.row, targetCol := some best.col,
        recommendedColor := some best.color }

/-- A parsed JSON value in the positions the service reads
(`json.targetRow`, `json.targetCol`). -/
inductive JVal where
  | jnum (q : ℚ)
  | jstr (strVal : String)
  | jnull
  | jundef
  deriving DecidableEq

def decDigit? (ch : Char) : Option ℕ :=
  if 48 ≤ ch.toNat ∧ ch.toNat ≤ 57 then some (ch.toNat - 48) else none

def digitsVal : List Char → ℕ → Option ℕ
  | [], acc => some acc
  | ch :: cs, acc =>
    match decDigit? ch with
    | some d => digitsVal cs (acc * 10 + d)
    | none => none

/-- JS `Number(string)` on the fragment exercised here: the empty string
coerces to `0`, decimal-digit strings to their value, anything else to
`NaN` (`none`). -/
def strToNumber (str : String) : Option ℚ :=
  match str.data with
  | [] => some 0
  | cs => (digitsVal cs 0).map fun n => (n : ℚ)

/-- JS `Number(x)` for the parsed-JSON values above; `none` models `NaN`. -/
def jsToNumber : JVal → Option ℚ
  | .jnum q => some q
  | .jstr str1 => strToNumber str1
  | .jnull => some 0
  | .jundef => none

structure AdvisoryJson where
  message : Option String
  rationale : Option String
  recommendedColor : Option String
  targetRow : JVal
  targetCol : JVal

/-- JS truthiness of an optional string (`undefined` and `""` are falsy). -/
def truthyStr : Option String → Bool
  | some str1 => !(str1 == "")
  | none => false

/-- JS `a || dflt` for an optional string. -/
def jsOr (o : Option String) (dflt : String) : String :=
  match o with
  | some str1 => if str1 = "" then dflt else str1
  | none => dflt

/-- The validation-and-use step of `getStrategicHint` after a successful
`JSON.parse`: use the advisory hint when both coordinates coerce to
numbers and a recommended color is present (lowercasing it), otherwise
fall back to the local heuristic. -/
def processAdvisory (j : AdvisoryJson) (validTargets : List TargetCandidate) : StrategicHint :=
  match jsToNumber j.targetRow, jsToNumber j.targetCol with
  | some r, some c =>
    if truthyStr j.recommendedColor then
      { message := jsOr j.message ("좋은 자리가 있어요!"),
        rationale := j.rationale,
        targetRow := some r, targetCol := some c,
        recommendedColor := some (strLower (j.recommendedColor.getD "")) }
    else getBestLocalTarget ("AI가 위치를 잘못 알려줬어요.") validTargets
  | _, _ => getBestLocalTarget ("AI가 위치를 잘못 알려줬어요.") validTargets

/-- The six color names of the shared color enumeration. -/
def colorNames : List String := ["red", "blue", "green", "yellow", "purple", "orange"]

/-! ## Grid initialization and the occupied-cell invariant -/

/-- Injective encoding of the source's id string `"r-c"` (cols < `GRID_COLS`). -/
def cellId (r c : ℕ) : ℕ := r * GRID_COLS + c

/-- `initGrid(width)`: Bernoulli fill (`Math.random() > 0.15`) of rows
`[0, GRID_ROWS)`; the randomness is abstracted by `spawn` and `colorAt`. -/
def initGrid (spawn : ℕ → ℕ → Bool) (colorAt : ℕ → ℕ → BubbleColor)
    (rowHeight w : Q) : List Bubble :=
  (List.range GRID_ROWS).flatMap fun r =>
    (List.range (colsInRow r)).filterMap fun c =>
      if spawn r c then
        some ⟨cellId r c, r, c, (getBubblePos rowHeight w r c).1,
          (getBubblePos rowHeight w r c).2, colorAt r c, true⟩
      else none

/-- The spec's bubble-field invariant: no two active bubbles share a
`(row, col)` cell. -/
def cellInvariant (F : List Bubble) : Prop :=
  F.Pairwise fun b1 b2 => b1.active = true → b2.active = true →
    ¬(b1.row = b2.row ∧ b1.col = b2.col)

instance (F : List Bubble) : Decidable (cellInvariant F) := by
  unfold cellInvariant
  infer_instance

/-- Test field for the match-resolution witnesses: three adjacent red
bubbles in row 0 and an isolated blue one. -/
def testBubble (idV r c : ℕ) (col : BubbleColor) : Bubble :=
  ⟨idV, r, c, Q.ofNat 0, Q.ofNat 0, col, true⟩

def matchField : List Bubble :=
  [testBubble 0 0 0 BubbleColor.red, testBubble 1 0 1 BubbleColor.red,
   testBubble 2 0 2 BubbleColor.red, testBubble 3 1 5 BubbleColor.blue]

def smallField : List Bubble :=
  [testBubble 0 0 0 BubbleColor.red, testBubble 1 0 1 BubbleColor.red,
   testBubble 2 2 5 BubbleColor.blue]

/-- A field occupying every scanned cell. -/
def fullField : List Bubble :=
  cellList.map fun rc =>
    ⟨cellId rc.1 rc.2, rc.1, rc.2, Q.ofNat 0, Q.ofNat 0, BubbleColor.red, true⟩

/-- A short vertical shot (distance 54, three sample steps) with an
active bubble exactly at the segment midpoint. -/
def losTarget : Bubble := ⟨1, 0, 0, Q.ofNat 0, Q.ofNat 54, BubbleColor.red, true⟩

def losBlocker : Bubble := ⟨2, 0, 0, Q.ofNat 0, Q.ofNat 27, BubbleColor.red, true⟩

/-- A longer vertical shot (distance 72, four sample steps) with an
active bubble exactly at the segment midpoint. -/
def losTargetFar : Bubble := ⟨1, 0, 0, Q.ofNat 0, Q.ofNat 72, BubbleColor.red, true⟩

def losBlockerFar : Bubble := ⟨2, 0, 0, Q.ofNat 0, Q.ofNat 36, BubbleColor.red, true⟩

def tcHigh : TargetCandidate := ⟨1, "red", 2, 5, 0, 100, "Left"⟩

def tcLow : TargetCandidate := ⟨2, "blue", 1, 3, 1, 200, "Right"⟩

/-- An advisory response whose `targetRow` is the string `"abc"`. -/
def abcJson : AdvisoryJson :=
  ⟨none, none, some "red", JVal.jstr "abc", JVal.jnum 1⟩

/-- An advisory response recommending a color outside the enumeration. -/
def pinkJson : AdvisoryJson :=
  ⟨some "핑크를 쏘세요", none, some "PINK", JVal.jnum 2, JVal.jnum 3⟩

/-! ## Theorems -/

theorem Q.dpos_rat (x : Q) : (0 : ℚ) < (x.d : ℚ) := by
  exact_mod_cast x.pos

theorem Q.le_iff (x y : Q) : Q.le x y ↔ x.toRat ≤ y.toRat := by
  unfold Q.le Q.toRat
  rw [div_le_div_iff₀ x.dpos_rat y.dpos_rat]
  constructor
  · intro h; exact_mod_cast h
  · intro h; exact_mod_cast h

theorem Q.lt_iff (x y : Q) : Q.lt x y ↔ x.toRat < y.toRat := by
  unfold Q.lt Q.toRat
  rw [div_lt_div_iff₀ x.dpos_rat y.dpos_rat]
  constructor
  · intro h; exact_mod_cast h
  · intro h; exact_mod_cast h

theorem Q.toRat_ofInt (k : ℤ) : (Q.ofInt k).toRat = (k : ℚ) := by
  unfold Q.ofInt Q.toRat; push_cast; ring

theorem Q.toRat_ofNat (k : ℕ) : (Q.ofNat k).toRat = (k : ℚ) := by
  unfold Q.ofNat Q.toRat; push_cast; ring

theorem Q.toRat_add (x y : Q) : (x.add y).toRat = x.toRat + y.toRat := by
  unfold Q.add Q.toRat
  have hx := x.dpos_rat
  have hy := y.dpos_rat
  field_simp
  try push_cast
  try ring

theorem Q.toRat_mul (x y : Q) : (x.mul y).toRat = x.toRat * y.toRat := by
  unfold Q.mul Q.toRat
  have hx := x.dpos_rat
  have hy := y.dpos_rat
  field_simp
  try push_cast
  try ring

theorem Q.toRat_neg (x : Q) : x.neg.toRat = -x.toRat := by
  unfold Q.neg Q.toRat
  push_cast
  ring

theorem Q.toRat_sub (x y : Q) : (x.sub y).toRat = x.toRat - y.toRat := by
  unfold Q.sub
  rw [Q.toRat_add, Q.toRat_neg]
  ring

theorem Q.toRat_div (x y : Q) (hy : 0 < y.n) : (x.div y).toRat = x.toRat / y.toRat := by
  unfold Q.div Q.toRat
  rw [dif_pos hy]
  have hx := x.dpos_rat
  have hyd := y.dpos_rat
  have hyn : (0 : ℚ) < (y.n : ℚ) := by exact_mod_cast hy
  field_simp
  try push_cast
  try ring

theorem Q.add_def (x y : Q) : x + y = x.add y := rfl

theorem Q.mul_def (x y : Q) : x * y = x.mul y := rfl

theorem Q.sub_def (x y : Q) : x - y = x.sub y := rfl

theorem Q.div_def (x y : Q) : x / y = x.div y := rfl

theorem unseen_subset_tail (F : List Bubble) (current : Bubble) (rest : List Bubble)
    (visited : List ℕ) (i : ℕ) :
    unseen F rest (i :: visited) ⊆ unseen F (current :: rest) visited := by
  intro x hx
  simp only [unseen, Finset.mem_sdiff, List.mem_toFinset, List.mem_map, List.mem_append,
    List.mem_cons] at hx ⊢
  obtain ⟨⟨b, hb, hbid⟩, hnv⟩ := hx
  refine ⟨⟨b, ?_, hbid⟩, fun h => hnv (Or.inr h)⟩
  tauto

theorem unseen_subset_same (F : List Bubble) (current : Bubble) (rest : List Bubble)
    (visited : List ℕ) :
    unseen F rest visited ⊆ unseen F (current :: rest) visited := by
  intro x hx
  simp only [unseen, Finset.mem_sdiff, List.mem_toFinset, List.mem_map, List.mem_append,
    List.mem_cons] at hx ⊢
  obtain ⟨⟨b, hb, hbid⟩, hnv⟩ := hx
  exact ⟨⟨b, by tauto, hbid⟩, hnv⟩

theorem matchMeasure_lt_skip (F : List Bubble) (current : Bubble) (rest : List Bubble)
    (visited : List ℕ) :
    matchMeasure F rest visited < matchMeasure F (current :: rest) visited := by
  unfold matchMeasure
  have h1 : (unseen F rest visited).card ≤ (unseen F (current :: rest) visited).card :=
    Finset.card_le_card (unseen_subset_same F current rest visited)
  have h2 := Nat.mul_le_mul_right (F.length + 1) h1
  simp only [List.length_cons]
  omega

theorem matchMeasure_lt_drop (F : List Bubble) (current : Bubble) (rest : List Bubble)
    (visited : List ℕ) (i : ℕ) :
    matchMeasure F rest (i :: visited) < matchMeasure F (current :: rest) visited := by
  unfold matchMeasure
  have h1 : (unseen F rest (i :: visited)).card ≤ (unseen F (current :: rest) visited).card :=
    Finset.card_le_card (unseen_subset_tail F current rest visited i)
  have h2 := Nat.mul_le_mul_right (F.length + 1) h1
  simp only [List.length_cons]
  omega

theorem matchMeasure_lt_expand (F : List Bubble) (current : Bubble) (rest : List Bubble)
    (visited : List ℕ) (neighbors : List Bubble)
    (hnb : ∀ b ∈ neighbors, b ∈ F) (hnl : neighbors.length ≤ F.length)
    (hnv : current.id ∉ visited) :
    matchMeasure F (neighbors.reverse ++ rest) (current.id :: visited) <
      matchMeasure F (current :: rest) visited := by
  have hcur : current.id ∈ unseen F (current :: rest) visited := by
    simp only [unseen, Finset.mem_sdiff, List.mem_toFinset, List.mem_map, List.mem_append,
      List.mem_cons]
    exact ⟨⟨current, by tauto, rfl⟩, hnv⟩
  have hsub : unseen F (neighbors.reverse ++ rest) (current.id :: visited) ⊆
      (unseen F (current :: rest) visited).erase current.id := by
    intro x hx
    simp only [unseen, Finset.mem_sdiff, List.mem_toFinset, List.mem_map, List.mem_append,
      List.mem_cons, List.mem_reverse, Finset.mem_erase] at hx ⊢
    obtain ⟨⟨b, hb, hbid⟩, hnvx⟩ := hx
    refine ⟨fun h => hnvx (Or.inl h), ⟨b, ?_, hbid⟩, fun h => hnvx (Or.inr h)⟩
    rcases hb with h | h | h
    · exact Or.inl h
    · exact Or.inl (hnb b h)
    · exact Or.inr (Or.inr h)
  have hcard : (unseen F (neighbors.reverse ++ rest) (current.id :: visited)).card ≤
      (unseen F (current :: rest) visited).card - 1 := by
    have := Finset.card_le_card hsub
    rwa [Finset.card_erase_of_mem hcur] at this
  have hpos : 1 ≤ (unseen F (current :: rest) visited).card :=
    Finset.card_pos.mpr ⟨current.id, hcur⟩
  unfold matchMeasure
  set a := (unseen F (current :: rest) visited).card with ha
  set a1 := (unseen F (neighbors.reverse ++ rest) (current.id :: visited)).card with ha1
  have h2 : a1 * (F.length + 1) ≤ (a - 1) * (F.length + 1) :=
    Nat.mul_le_mul_right _ hcard
  have h3 : (a - 1) * (F.length + 1) + (F.length + 1) = a * (F.length + 1) := by
    have : a - 1 + 1 = a := Nat.succ_pred_eq_of_pos hpos
    calc (a - 1) * (F.length + 1) + (F.length + 1)
        = (a - 1 + 1) * (F.length + 1) := by ring
      _ = a * (F.length + 1) := by rw [this]
  have hlen : (neighbors.reverse ++ rest).length ≤ rest.length + F.length := by
    simp only [List.length_append, List.length_reverse]
    omega
  simp only [List.length_cons]
  omega

/-- Elements of a `Nodup`-ids field are determined by their id. -/
theorem field_id_inj {F : List Bubble} (hids : (F.map Bubble.id).Nodup)
    {b c : Bubble} (hb : b ∈ F) (hc : c ∈ F) (h : b.id = c.id) : b = c :=
  List.inj_on_of_nodup_map hids hb hc h

/-- Main worklist lemma: under the loop invariant and with enough fuel,
the traversal result is sound (same-color, reachable), duplicate-free,
extends `ms`, absorbs every same-color stack entry, and is closed under
the adjacency rule. -/
theorem matchLoop_spec (F : List Bubble) (tc : BubbleColor) (seed : Bubble)
    (hids : (F.map Bubble.id).Nodup) :
    ∀ fuel toCheck visited ms,
      matchMeasure F toCheck visited < fuel →
      MatchInv F tc seed toCheck visited ms →
      (∀ m ∈ matchLoop F tc fuel toCheck visited ms,
          m.color = tc ∧ MatchReach F tc seed m) ∧
      ((matchLoop F tc fuel toCheck visited ms).map Bubble.id).Nodup ∧
      (∀ x ∈ ms, x ∈ matchLoop F tc fuel toCheck visited ms) ∧
      (∀ x ∈ toCheck, x.color = tc → x ∈ matchLoop F tc fuel toCheck visited ms) ∧
      (∀ m ∈ matchLoop F tc fuel toCheck visited ms, ∀ b ∈ F, b.active = true →
          isNeighbor m b = true → b.color = tc →
          b ∈ matchLoop F tc fuel toCheck visited ms) := by
  intro fuel
  induction fuel with
  | zero => intro toCheck visited ms hmu _; exact absurd hmu (Nat.not_lt_zero _)
  | succ fuel ih =>
    intro toCheck visited ms hmu hinv
    match toCheck with
    | [] =>
      simp only [matchLoop]
      refine ⟨fun m hm => ?_, hinv.nodup, fun x hx => hx, fun x hx => absurd hx (by simp),
        fun m hm b hb hact hnbr hcol => ?_⟩
      · obtain ⟨h1, h2, h3⟩ := hinv.sound m hm
        exact ⟨h1, h3⟩
      · rcases hinv.frontier b hb hact m hm hnbr with h | h
        · exact hinv.visitedMatched b.id h b hb rfl hcol
        · exact absurd h (by simp)
    | current :: rest =>
      by_cases hvis : current.id ∈ visited
      · have hstep : matchLoop F tc (fuel + 1) (current :: rest) visited ms =
            matchLoop F tc fuel rest visited ms := by
          simp only [matchLoop, if_pos hvis]
        rw [hstep]
        have hmu1 : matchMeasure F rest visited < fuel := by
          have := matchMeasure_lt_skip F current rest visited
          omega
        have hinv1 : MatchInv F tc seed rest visited ms := by
          refine ⟨hinv.sound, fun x hx => hinv.pending x (by simp [hx]),
            fun b hb hact m hm hnbr => ?_, hinv.visitedMatched,
            fun x hx => hinv.stackOk x (by simp [hx]), hinv.nodup⟩
          rcases hinv.frontier b hb hact m hm hnbr with h | h
          · exact Or.inl h
          · rcases List.mem_cons.mp h with h | h
            · exact Or.inl (h ▸ hvis)
            · exact Or.inr h
        obtain ⟨s1, s2, s3, s4, s5⟩ := ih rest visited ms hmu1 hinv1
        refine ⟨s1, s2, s3, fun x hx hxc => ?_, s5⟩
        rcases List.mem_cons.mp hx with h | h
        · subst h
          have hxF := hinv.stackOk x (by simp)
          exact s3 x (hinv.visitedMatched x.id hvis x hxF.1 rfl hxc)
        · exact s4 x h hxc
      · by_cases hcol : current.color = tc
        · -- match branch: visit `current`, push its fresh active neighbours
          set visited1 := current.id :: visited with hvisited1
          set neighbors := F.filter (fun b =>
            b.active && !(List.contains visited1 b.id) && isNeighbor current b)
            with hneighbors
          have hstep : matchLoop F tc (fuel + 1) (current :: rest) visited ms =
              matchLoop F tc fuel (neighbors.reverse ++ rest) visited1 (ms ++ [current]) := by
            simp only [matchLoop, if_neg hvis, if_pos hcol]
          rw [hstep]
          have hnb : ∀ b ∈ neighbors, b ∈ F := fun b hb => (List.mem_filter.mp hb).1
          have hnprops : ∀ b ∈ neighbors, b.active = true ∧ b.id ∉ visited1 ∧
              isNeighbor current b = true := by
            intro b hb
            have h2 := (List.mem_filter.mp hb).2
            simp only [Bool.and_eq_true, Bool.not_eq_true'] at h2
            refine ⟨h2.1.1, ?_, h2.2⟩
            simpa using h2.1.2
          have hmu1 : matchMeasure F (neighbors.reverse ++ rest) visited1 < fuel := by
            rw [hvisited1]
            have := matchMeasure_lt_expand F current rest visited neighbors hnb
              (by rw [hneighbors]; exact List.length_filter_le _ _) hvis
            omega
          have hcurF : current ∈ F ∧ current.active = true := hinv.stackOk current (by simp)
          have hcurReach : MatchReach F tc seed current := hinv.pending current (by simp)
          have hinv1 : MatchInv F tc seed (neighbors.reverse ++ rest) visited1
              (ms ++ [current]) := by
            refine ⟨?_, ?_, ?_, ?_, ?_, ?_⟩
            · intro m hm
              rcases List.mem_append.mp hm with h | h
              · obtain ⟨h1, h2, h3⟩ := hinv.sound m h
                exact ⟨h1, by simp [hvisited1, h2], h3⟩
              · have : m = current := by simpa using h
                subst this
                exact ⟨hcol, by simp [hvisited1], hcurReach⟩
            · intro x hx
              rcases List.mem_append.mp hx with h | h
              · have hxn := List.mem_reverse.mp h
                obtain ⟨hact, _, hnbr⟩ := hnprops x hxn
                exact Relation.ReflTransGen.tail hcurReach ⟨hcol, hnb x hxn, hact, hnbr⟩
              · exact hinv.pending x (by simp [h])
            · intro b hb hact m hm hnbr
              rcases List.mem_append.mp hm with h | h
              · rcases hinv.frontier b hb hact m h hnbr with h2 | h2
                · exact Or.inl (by simp [hvisited1, h2])
                · rcases List.mem_cons.mp h2 with h3 | h3
                  · exact Or.inl (by simp [hvisited1, h3])
                  · exact Or.inr (List.mem_append.mpr (Or.inr h3))
              · have hmc : m = current := by simpa using h
                subst hmc
                by_cases hbv : b.id ∈ visited1
                · exact Or.inl hbv
                · refine Or.inr (List.mem_append.mpr (Or.inl (List.mem_reverse.mpr ?_)))
                  rw [hneighbors]
                  refine List.mem_filter.mpr ⟨hb, ?_⟩
                  simp [hact, hnbr, hbv]
            · intro i hi b hb hbid hbc
              rcases List.mem_cons.mp hi with h | h
              · have : b = current := field_id_inj hids hb hcurF.1 (by rw [hbid, h])
                subst this
                simp
              · exact List.mem_append.mpr (Or.inl (hinv.visitedMatched i h b hb hbid hbc))
            · intro x hx
              rcases List.mem_append.mp hx with h | h
              · have hxn := List.mem_reverse.mp h
                exact ⟨hnb x hxn, (hnprops x hxn).1⟩
              · exact hinv.stackOk x (by simp [h])
            · rw [List.map_append]
              refine List.Nodup.append hinv.nodup (by simp) ?_
              intro a ha
              simp only [List.map_cons, List.map_nil, List.mem_cons, List.not_mem_nil,
                or_false] at *
              obtain ⟨m, hm, hmid⟩ := List.mem_map.mp ha
              intro heq
              have := (hinv.sound m hm).2.1
              rw [hmid, heq] at this
              exact hvis this
          obtain ⟨s1, s2, s3, s4, s5⟩ := ih (neighbors.reverse ++ rest) visited1
            (ms ++ [current]) hmu1 hinv1
          refine ⟨s1, s2, fun x hx => s3 x (List.mem_append.mpr (Or.inl hx)),
            fun x hx hxc => ?_, s5⟩
          rcases List.mem_cons.mp hx with h | h
          · subst h
            exact s3 x (by simp)
          · exact s4 x (List.mem_append.mpr (Or.inr h)) hxc
        · -- non-matching color: mark visited, keep searching
          have hstep : matchLoop F tc (fuel + 1) (current :: rest) visited ms =
              matchLoop F tc fuel rest (current.id :: visited) ms := by
            simp only [matchLoop, if_neg hvis, if_neg hcol]
          rw [hstep]
          have hmu1 : matchMeasure F rest (current.id :: visited) < fuel := by
            have := matchMeasure_lt_drop F current rest visited current.id
            omega
          have hcurF : current ∈ F ∧ current.active = true := hinv.stackOk current (by simp)
          have hinv1 : MatchInv F tc seed rest (current.id :: visited) ms := by
            refine ⟨?_, fun x hx => hinv.pending x (by simp [hx]), ?_, ?_,
              fun x hx => hinv.stackOk x (by simp [hx]), hinv.nodup⟩
            · intro m hm
              obtain ⟨h1, h2, h3⟩ := hinv.sound m hm
              exact ⟨h1, by simp [h2], h3⟩
            · intro b hb hact m hm hnbr
              rcases hinv.frontier b hb hact m hm hnbr with h | h
              · exact Or.inl (by simp [h])
              · rcases List.mem_cons.mp h with h2 | h2
                · exact Or.inl (by simp [h2])
                · exact Or.inr h2
            · intro i hi b hb hbid hbc
              rcases List.mem_cons.mp hi with h | h
              · have : b = current := field_id_inj hids hb hcurF.1 (by rw [hbid, h])
                subst this
                exact absurd hbc hcol
              · exact hinv.visitedMatched i h b hb hbid hbc
          obtain ⟨s1, s2, s3, s4, s5⟩ := ih rest (current.id :: visited) ms hmu1 hinv1
          refine ⟨s1, s2, s3, fun x hx hxc => ?_, s5⟩
          rcases List.mem_cons.mp hx with h | h
          · subst h
            exact absurd hxc hcol
          · exact s4 x h hxc

/-- `findMatches` returns exactly the same-color connected component of
the seed (reachability through active same-color bubbles), without
duplicates. -/
theorem findMatches_spec (F : List Bubble) (seed : Bubble)
    (hids : (F.map Bubble.id).Nodup) (hseed : seed ∈ F) (hact : seed.active = true) :
    (∀ b, b ∈ findMatches F seed ↔
        MatchReach F seed.color seed b ∧ b.color = seed.color) ∧
    ((findMatches F seed).map Bubble.id).Nodup := by
  have hmu : matchMeasure F [seed] [] < (F.length + 1) * (F.length + 1) + 2 := by
    have hcard : (unseen F [seed] []).card ≤ F.length + 1 := by
      have h1 : (unseen F [seed] []).card ≤ ((F ++ [seed]).map Bubble.id).toFinset.card :=
        Finset.card_le_card (Finset.sdiff_subset)
    
      have h2 : ((F ++ [seed]).map Bubble.id).toFinset.card ≤
          ((F ++ [seed]).map Bubble.id).length := List.toFinset_card_le _
      simp only [List.length_map, List.length_append, List.length_cons,
        List.length_nil] at h2
      omega
    have := Nat.mul_le_mul_right (F.length + 1) hcard
    unfold matchMeasure
    simp only [List.length_cons, List.length_nil]
    omega
  have hinv : MatchInv F seed.color seed [seed] [] [] := by
    refine ⟨by simp, ?_, by simp, by simp, ?_, by simp⟩
    · intro x hx
      have : x = seed := by simpa using hx
      subst this
      exact Relation.ReflTransGen.refl
    · intro x hx
      have : x = seed := by simpa using hx
      subst this
      exact ⟨hseed, hact⟩
  obtain ⟨s1, s2, s3, s4, s5⟩ := matchLoop_spec F seed.color seed hids
    ((F.length + 1) * (F.length + 1) + 2) [seed] [] [] hmu hinv
  refine ⟨fun b => ⟨fun hb => ?_, fun hb => ?_⟩, s2⟩
  · exact ⟨(s1 b hb).2, (s1 b hb).1⟩
  · obtain ⟨hreach, hcol⟩ := hb
    unfold MatchReach at hreach
    induction hreach with
    | refl => exact s4 seed (by simp) rfl
    | tail hab hbc ih =>
      obtain ⟨hmc, hcF, hcact, hnbr⟩ := hbc
      exact s5 _ (ih hmc) _ hcF hcact hnbr hcol

theorem snapFold_inv (F : List Bubble) (rowHeight w : Q) (p : Q × Q) :
    ∀ (cells seen : List (ℕ × ℕ)) (acc : Option (ℕ × ℕ × Q × Q × Q)),
      SnapInv F rowHeight w p seen acc →
      SnapInv F rowHeight w p (seen ++ cells) (cells.foldl (snapStep F rowHeight w p) acc) := by
  intro cells
  induction cells with
  | nil => intro seen acc h; simpa using h
  | cons cell cells ih =>
    intro seen acc h
    have hstep : SnapInv F rowHeight w p (seen ++ [cell]) (snapStep F rowHeight w p acc cell) := by
      by_cases hocc : occupiedCell F cell.1 cell.2 = true
      · -- occupied: accumulator unchanged
        have : snapStep F rowHeight w p acc cell = acc := by
          simp [snapStep, hocc]
        rw [this]
        match acc, h with
        | none, h =>
          intro c hc
          rcases List.mem_append.mp hc with h2 | h2
          · exact h c h2
          · have : c = cell := by simpa using h2
            subst this; exact hocc
        | some (r, c0, x, y, d), h =>
          obtain ⟨h1, h2, h3, h4, h5⟩ := h
          refine ⟨List.mem_append.mpr (Or.inl h1), h2, h3, h4, ?_⟩
          intro c hc hfree
          rcases List.mem_append.mp hc with hmem | hmem
          · exact h5 c hmem hfree
          · have : c = cell := by simpa using hmem
            subst this
            rw [hocc] at hfree
            exact absurd hfree (by simp)
      · have hocc2 : occupiedCell F cell.1 cell.2 = false := by
          simpa using hocc
        match acc, h with
        | none, h =>
          have : snapStep F rowHeight w p none cell =
              some (cell.1, cell.2, (getBubblePos rowHeight w cell.1 cell.2).1,
                (getBubblePos rowHeight w cell.1 cell.2).2,
                distSq p (getBubblePos rowHeight w cell.1 cell.2)) := by
            simp [snapStep, hocc2]
          rw [this]
          refine ⟨List.mem_append.mpr (Or.inr (by simp)), hocc2, rfl, rfl, ?_⟩
          intro c hc hfree
          rcases List.mem_append.mp hc with hmem | hmem
          · rw [h c hmem] at hfree
            exact absurd hfree (by simp)
          · have : c = cell := by simpa using hmem
            subst this
            exact le_refl _
        | some (r, c0, x, y, d), h =>
          obtain ⟨h1, h2, h3, h4, h5⟩ := h
          by_cases hlt : Q.lt (distSq p (getBubblePos rowHeight w cell.1 cell.2)) d
          · have : snapStep F rowHeight w p (some (r, c0, x, y, d)) cell =
                some (cell.1, cell.2, (getBubblePos rowHeight w cell.1 cell.2).1,
                  (getBubblePos rowHeight w cell.1 cell.2).2,
                  distSq p (getBubblePos rowHeight w cell.1 cell.2)) := by
              simp [snapStep, hocc2, hlt]
            rw [this]
            refine ⟨List.mem_append.mpr (Or.inr (by simp)), hocc2, rfl, rfl, ?_⟩
            intro c hc hfree
            rcases List.mem_append.mp hc with hmem | hmem
            · have hle := h5 c hmem hfree
              have hlt2 := (Q.lt_iff _ _).mp hlt
              rw [h4] at hle hlt2
              exact le_trans (le_of_lt hlt2) hle
            · have : c = cell := by simpa using hmem
              subst this
              exact le_refl _
          · have : snapStep F rowHeight w p (some (r, c0, x, y, d)) cell =
                some (r, c0, x, y, d) := by
              simp [snapStep, hocc2, hlt]
            rw [this]
            refine ⟨List.mem_append.mpr (Or.inl h1), h2, h3, h4, ?_⟩
            intro c hc hfree
            rcases List.mem_append.mp hc with hmem | hmem
            · exact h5 c hmem hfree
            · have : c = cell := by simpa using hmem
              subst this
              have h6 := (Q.lt_iff (distSq p (getBubblePos rowHeight w c.1 c.2)) d).not.mp hlt
              exact le_of_not_lt h6
    have := ih (seen ++ [cell]) _ hstep
    simpa [List.append_assoc] using this

/-- The snap scan over the whole grid, from the empty prefix. -/
theorem snapScan_inv (F : List Bubble) (rowHeight w : Q) (p : Q × Q) :
    SnapInv F rowHeight w p cellList (snapScan F rowHeight w p) := by
  have h0 : SnapInv F rowHeight w p [] none := by
    simp [SnapInv]
  have h1 := snapFold_inv F rowHeight w p cellList [] none h0
  rw [List.nil_append] at h1
  exact h1

/-- When some scanned cell is free, the snap picks a free scanned cell of
minimal distance, and stores its grid position. -/
theorem snapCell_spec (F : List Bubble) (rowHeight w : Q) (p : Q × Q)
    (hfree : ∃ cell ∈ cellList, occupiedCell F cell.1 cell.2 = false) :
    (((snapCell F rowHeight w p).1, (snapCell F rowHeight w p).2.1) ∈ cellList) ∧
    occupiedCell F (snapCell F rowHeight w p).1 (snapCell F rowHeight w p).2.1 = false ∧
    ((snapCell F rowHeight w p).2.2.1, (snapCell F rowHeight w p).2.2.2) =
      getBubblePos rowHeight w (snapCell F rowHeight w p).1 (snapCell F rowHeight w p).2.1 ∧
    (∀ cell ∈ cellList, occupiedCell F cell.1 cell.2 = false →
      (distSq p (getBubblePos rowHeight w (snapCell F rowHeight w p).1
        (snapCell F rowHeight w p).2.1)).toRat ≤
      (distSq p (getBubblePos rowHeight w cell.1 cell.2)).toRat) := by
  have hinv := snapScan_inv F rowHeight w p
  obtain ⟨cf, hcf, hcfree⟩ := hfree
  match hscan : snapScan F rowHeight w p with
  | none =>
    rw [hscan] at hinv
    rw [hinv cf hcf] at hcfree
    exact absurd hcfree (by simp)
  | some (r, c0, x, y, d) =>
    rw [hscan] at hinv
    obtain ⟨h1, h2, h3, h4, h5⟩ := hinv
    have hcell : snapCell F rowHeight w p = (r, c0, x, y) := by
      simp [snapCell, hscan]
    rw [hcell]
    refine ⟨h1, h2, h3, ?_⟩
    intro cell hcl hfr
    have := h5 cell hcl hfr
    rw [h4] at this
    exact this

theorem leastStepsAux_spec (d2 : Q) :
    ∀ (fuel start : ℕ), (∃ k ≤ fuel, Q.le d2 (Q.ofNat (324 * ((start + k) * (start + k))))) →
      Q.le d2 (Q.ofNat (324 * (leastStepsAux d2 fuel start * leastStepsAux d2 fuel start))) ∧
      (∀ m, start ≤ m → m < leastStepsAux d2 fuel start →
        ¬ Q.le d2 (Q.ofNat (324 * (m * m)))) ∧
      start ≤ leastStepsAux d2 fuel start := by
  intro fuel
  induction fuel with
  | zero =>
    intro start hex
    obtain ⟨k, hk, hP⟩ := hex
    have : k = 0 := Nat.le_zero.mp hk
    subst this
    simp only [Nat.add_zero] at hP
    exact ⟨by simp only [leastStepsAux]; exact hP, fun m h1 h2 => by simp [leastStepsAux] at h2; omega,
      by simp [leastStepsAux]⟩
  | succ fuel ih =>
    intro start hex
    by_cases hP : Q.le d2 (Q.ofNat (324 * (start * start)))
    · refine ⟨by simp only [leastStepsAux, if_pos hP]; exact hP, fun m h1 h2 => ?_,
        by simp [leastStepsAux, hP]⟩
      simp only [leastStepsAux, if_pos hP] at h2
      omega
    · have hstep : leastStepsAux d2 (fuel + 1) start = leastStepsAux d2 fuel (start + 1) := by
        simp [leastStepsAux, hP]
      have hex2 : ∃ k ≤ fuel, Q.le d2 (Q.ofNat (324 * ((start + 1 + k) * (start + 1 + k)))) := by
        obtain ⟨k, hk, hPk⟩ := hex
        match k, hPk with
        | 0, hPk => exact absurd (by simpa using hPk) hP
        | k + 1, hPk =>
          refine ⟨k, by omega, ?_⟩
          have : start + 1 + k = start + (k + 1) := by omega
          rw [this]
          exact hPk
      obtain ⟨s1, s2, s3⟩ := ih (start + 1) hex2
      rw [hstep]
      refine ⟨s1, fun m h1 h2 => ?_, by omega⟩
      rcases Nat.eq_or_lt_of_le h1 with h3 | h3
      · subst h3; exact hP
      · exact s2 m h3 h2

/-- `sampleSteps` is the least `n` with `d2 ≤ 324 n²`. -/
theorem sampleSteps_spec (d2 : Q) :
    Q.le d2 (Q.ofNat (324 * (sampleSteps d2 * sampleSteps d2))) ∧
    (∀ m, m < sampleSteps d2 → ¬ Q.le d2 (Q.ofNat (324 * (m * m)))) := by
  have hex : ∃ k ≤ d2.n.toNat + 2, Q.le d2 (Q.ofNat (324 * ((0 + k) * (0 + k)))) := by
    refine ⟨d2.n.toNat + 1, by omega, ?_⟩
    unfold Q.le Q.ofNat
    simp only [Nat.zero_add]
    have hd : (1 : ℤ) ≤ d2.d := d2.pos
    have hn : d2.n ≤ (d2.n.toNat : ℤ) := Int.self_le_toNat d2.n
    have ht : (0 : ℤ) ≤ (d2.n.toNat : ℤ) := Int.natCast_nonneg _
    push_cast
    nlinarith [sq_nonneg ((d2.n.toNat : ℤ) + 1),
      mul_nonneg (by positivity : (0 : ℤ) ≤ 324 * (((d2.n.toNat : ℤ) + 1) *
        ((d2.n.toNat : ℤ) + 1))) (by omega : (0 : ℤ) ≤ d2.d - 1)]
  obtain ⟨s1, s2, _⟩ := leastStepsAux_spec d2 (d2.n.toNat + 2) 0 hex
  exact ⟨s1, fun m hm => s2 m (Nat.zero_le m) hm⟩

theorem distSq_toRat (p q : Q × Q) :
    (distSq p q).toRat =
      (p.1.toRat - q.1.toRat) ^ 2 + (p.2.toRat - q.2.toRat) ^ 2 := by
  unfold distSq
  simp only [Q.add_def, Q.mul_def, Q.sub_def, Q.toRat_add, Q.toRat_mul, Q.toRat_sub]
  ring

theorem collideRadius_sq_toRat :
    (collideRadius * collideRadius).toRat = ((324 : ℚ) / 5) ^ 2 := by
  simp only [collideRadius, BUBBLE_RADIUS, Q.mul_def, Q.toRat_mul, Q.toRat_ofNat]
  norm_num [Q.toRat]

/-- `isPathClear` is `true` exactly when no sampled point is strictly
within `1.8 × BUBBLE_RADIUS = 324/5` of another active bubble. -/
theorem isPathClear_iff (target : Bubble) (anchor : Q × Q) (F : List Bubble) :
    isPathClear target anchor F = true ↔
      ∀ pt ∈ samplePoints anchor (target.x, target.y), ∀ b ∈ F,
        b.active = true → b.id ≠ target.id →
        ¬ ((distSq pt (b.x, b.y)).toRat < ((324 : ℚ) / 5) ^ 2) := by
  unfold isPathClear
  rw [Bool.not_eq_true']
  rw [← collideRadius_sq_toRat]
  constructor
  · intro h pt hpt b hb hact hid hlt
    have h2 := List.any_eq_false.mp h pt hpt
    have h3 := List.any_eq_false.mp (Bool.eq_false_iff.mpr h2) b hb
    simp only [Bool.and_eq_true, Bool.not_eq_true', beq_eq_false_iff_ne, ne_eq,
      decide_eq_true_eq, not_and] at h3
    exact h3 ⟨hact, hid⟩ ((Q.lt_iff _ _).mpr hlt)
  · intro h
    refine List.any_eq_false.mpr fun pt hpt => Bool.eq_false_iff.mp
      (List.any_eq_false.mpr fun b hb => ?_)
    simp only [Bool.and_eq_true, Bool.not_eq_true', beq_eq_false_iff_ne, ne_eq,
      decide_eq_true_eq, not_and]
    intro hcond hlt
    exact h pt hpt b hb hcond.1 hcond.2 ((Q.lt_iff _ _).mp hlt)

/-- An active blocker exactly at the segment midpoint blocks the path,
provided the sampling loop runs at all (`steps ≥ 4`). -/
theorem midpoint_blocker_blocks (target : Bubble) (anchor : Q × Q) (F : List Bubble)
    (blocker : Bubble) (hmem : blocker ∈ F) (hact : blocker.active = true)
    (hid : blocker.id ≠ target.id)
    (hbx : (Q.ofNat 2 * blocker.x - (anchor.1 + target.x)).n = 0)
    (hby : (Q.ofNat 2 * blocker.y - (anchor.2 + target.y)).n = 0)
    (hsteps : 4 ≤ sampleSteps (distSq anchor (target.x, target.y))) :
    isPathClear target anchor F = false := by
  have hbx2 : blocker.x.toRat = (anchor.1.toRat + target.x.toRat) / 2 := by
    have h0 : (Q.ofNat 2 * blocker.x - (anchor.1 + target.x)).toRat = 0 := by
      unfold Q.toRat
      rw [hbx]
      simp
    simp only [Q.mul_def, Q.sub_def, Q.add_def, Q.toRat_mul, Q.toRat_sub, Q.toRat_add,
      Q.toRat_ofNat] at h0
    push_cast at h0
    linarith
  have hby2 : blocker.y.toRat = (anchor.2.toRat + target.y.toRat) / 2 := by
    have h0 : (Q.ofNat 2 * blocker.y - (anchor.2 + target.y)).toRat = 0 := by
      unfold Q.toRat
      rw [hby]
      simp
    simp only [Q.mul_def, Q.sub_def, Q.add_def, Q.toRat_mul, Q.toRat_sub, Q.toRat_add,
      Q.toRat_ofNat] at h0
    push_cast at h0
    linarith
  by_cases hclear : isPathClear target anchor F = true
  swap
  · exact Bool.eq_false_iff.mpr hclear
  exfalso
  set s := sampleSteps (distSq anchor (target.x, target.y)) with hs
  obtain ⟨i, hi1, hi2, hkZ⟩ : ∃ i, 1 ≤ i ∧ i < s - 2 ∧
      (2 * (i : ℤ) - s = -2 ∨ 2 * (i : ℤ) - s = -1 ∨ 2 * (i : ℤ) - s = 0) := by
    by_cases h4 : s = 4
    · refine ⟨1, ?_, ?_, ?_⟩ <;> omega
    · by_cases h5 : s = 5
      · refine ⟨2, ?_, ?_, ?_⟩ <;> omega
      · refine ⟨s / 2, ?_, ?_, ?_⟩ <;> omega
  have hkQ : (2 * (i : ℚ) - (s : ℚ)) ^ 2 ≤ 4 := by
    have h1 : ((2 * (i : ℤ) - (s : ℤ) : ℤ) : ℚ) ^ 2 ≤ 4 := by
      rcases hkZ with h | h | h <;> rw [h] <;> norm_num
    push_cast at h1
    exact h1
  have hsQ : (4 : ℚ) ≤ (s : ℚ) := by exact_mod_cast hsteps
  have hs0 : (0 : ℚ) < (s : ℚ) := lt_of_lt_of_le (by norm_num) hsQ
  have hsn : (0 : ℤ) < (Q.ofNat s).n := by
    simp only [Q.ofNat]
    exact_mod_cast lt_of_lt_of_le (by norm_num) hsteps
  have htR : (Q.ofNat i / Q.ofNat s).toRat = (i : ℚ) / (s : ℚ) := by
    rw [Q.div_def, Q.toRat_div _ _ hsn, Q.toRat_ofNat, Q.toRat_ofNat]
  -- the chosen sample point lies in the sampled list
  have hptmem : (anchor.1 + (target.x - anchor.1) * (Q.ofNat i / Q.ofNat s),
      anchor.2 + (target.y - anchor.2) * (Q.ofNat i / Q.ofNat s)) ∈
      samplePoints anchor (target.x, target.y) := by
    unfold samplePoints
    have hmem2 : i ∈ List.range' 1 (s - 3) := by
      rw [List.mem_range'_1]
      omega
    exact List.mem_map_of_mem _ hmem2
  have hchar := (isPathClear_iff target anchor F).mp hclear _ hptmem blocker hmem hact hid
  apply hchar
  -- compute the squared distance from the sample point to the midpoint
  have hpt1 : (anchor.1 + (target.x - anchor.1) * (Q.ofNat i / Q.ofNat s)).toRat =
      anchor.1.toRat + (target.x.toRat - anchor.1.toRat) * ((i : ℚ) / (s : ℚ)) := by
    simp only [Q.add_def, Q.mul_def, Q.sub_def, Q.toRat_add, Q.toRat_mul, Q.toRat_sub, htR]
  have hpt2 : (anchor.2 + (target.y - anchor.2) * (Q.ofNat i / Q.ofNat s)).toRat =
      anchor.2.toRat + (target.y.toRat - anchor.2.toRat) * ((i : ℚ) / (s : ℚ)) := by
    simp only [Q.add_def, Q.mul_def, Q.sub_def, Q.toRat_add, Q.toRat_mul, Q.toRat_sub, htR]
  have hdist : (distSq
      (anchor.1 + (target.x - anchor.1) * (Q.ofNat i / Q.ofNat s),
        anchor.2 + (target.y - anchor.2) * (Q.ofNat i / Q.ofNat s))
      (blocker.x, blocker.y)).toRat =
      ((i : ℚ) / (s : ℚ) - 1 / 2) ^ 2 *
        ((target.x.toRat - anchor.1.toRat) ^ 2 + (target.y.toRat - anchor.2.toRat) ^ 2) := by
    rw [distSq_toRat]
    simp only [hpt1, hpt2, hbx2, hby2]
    ring
  rw [hdist]
  have hDbound : (target.x.toRat - anchor.1.toRat) ^ 2 +
      (target.y.toRat - anchor.2.toRat) ^ 2 ≤ 324 * (s : ℚ) ^ 2 := by
    have h1 := (sampleSteps_spec (distSq anchor (target.x, target.y))).1
    rw [Q.le_iff, Q.toRat_ofNat] at h1
    rw [distSq_toRat] at h1
    have h2 : ((324 * (s * s) : ℕ) : ℚ) = 324 * (s : ℚ) ^ 2 := by
      push_cast
      ring
    rw [← hs] at h1
    rw [h2] at h1
    have h3 : (anchor.1.toRat - target.x.toRat) ^ 2 +
        (anchor.2.toRat - target.y.toRat) ^ 2 =
        (target.x.toRat - anchor.1.toRat) ^ 2 + (target.y.toRat - anchor.2.toRat) ^ 2 := by
      ring
    rw [h3] at h1
    exact h1
  have hf1 : ((i : ℚ) / (s : ℚ) - 1 / 2) ^ 2 ≤ 1 / (s : ℚ) ^ 2 := by
    have e1 : ((i : ℚ) / (s : ℚ) - 1 / 2) ^ 2 =
        (2 * (i : ℚ) - (s : ℚ)) ^ 2 / (4 * (s : ℚ) ^ 2) := by
      field_simp
      ring
    rw [e1, div_le_div_iff₀ (by positivity) (by positivity)]
    nlinarith [sq_nonneg ((s : ℚ))]
  have hD0 : 0 ≤ (target.x.toRat - anchor.1.toRat) ^ 2 +
      (target.y.toRat - anchor.2.toRat) ^ 2 := by positivity
  calc ((i : ℚ) / (s : ℚ) - 1 / 2) ^ 2 *
        ((target.x.toRat - anchor.1.toRat) ^ 2 + (target.y.toRat - anchor.2.toRat) ^ 2)
      ≤ (1 / (s : ℚ) ^ 2) * (324 * (s : ℚ) ^ 2) :=
        mul_le_mul hf1 hDbound hD0 (by positivity)
    _ = 324 := by
        field_simp
    _ < ((324 : ℚ) / 5) ^ 2 := by norm_num

theorem getBestLocalTarget_spec (msg : String) (targets : List TargetCandidate)
    (hne : targets ≠ []) :
    ∃ best ∈ targets,
      getBestLocalTarget msg targets =
        { message := "[" ++ (advisoryLabel best.color).getD best.color.toUpper ++
            "]를 맞춰보세요!",
          rationale := some "Selected based on highest potential cluster score available locally.",
          targetRow := some best.row, targetCol := some best.col,
          recommendedColor := some best.color } ∧
      (∀ c ∈ targets, c.size * c.pointsPerBubble ≤ best.size * best.pointsPerBubble) ∧
      (∀ c ∈ targets, c.size * c.pointsPerBubble = best.size * best.pointsPerBubble →
        best.row ≤ c.row) := by
  have hperm := List.perm_insertionSort tcBefore targets
  have hsorted := List.sorted_insertionSort tcBefore targets
  match hsort : List.insertionSort tcBefore targets with
  | [] =>
    rw [hsort] at hperm
    exact absurd hperm.symm.eq_nil hne
  | best :: tl =>
    rw [hsort] at hperm hsorted
    have hmemb : best ∈ targets := hperm.mem_iff.mp (by simp)
    have hall : ∀ c ∈ targets, c = best ∨ tcBefore best c := by
      intro c hc
      have hc2 : c ∈ best :: tl := hperm.mem_iff.mpr hc
      rcases List.mem_cons.mp hc2 with h | h
      · exact Or.inl h
      · exact Or.inr (List.rel_of_sorted_cons hsorted c h)
    refine ⟨best, hmemb, ?_, ?_, ?_⟩
    · simp [getBestLocalTarget, hsort]
    · intro c hc
      rcases hall c hc with h | h
      · subst h; exact le_refl _
      · unfold tcBefore at h
        omega
    · intro c hc heq
      rcases hall c hc with h | h
      · subst h; exact le_refl _
      · unfold tcBefore at h
        omega

theorem processAdvisory_spec (j : AdvisoryJson) (targets : List TargetCandidate) :
    ((jsToNumber j.targetRow = none ∨ jsToNumber j.targetCol = none ∨
        truthyStr j.recommendedColor = false) →
      processAdvisory j targets = getBestLocalTarget ("AI가 위치를 잘못 알려줬어요.") targets) ∧
    (∀ r c strc, jsToNumber j.targetRow = some r → jsToNumber j.targetCol = some c →
      j.recommendedColor = some strc → strc ≠ "" →
      processAdvisory j targets =
        { message := jsOr j.message ("좋은 자리가 있어요!"), rationale := j.rationale,
          targetRow := some r, targetCol := some c,
          recommendedColor := some (strLower strc) }) := by
  constructor
  · intro h
    unfold processAdvisory
    match hr : jsToNumber j.targetRow, hc : jsToNumber j.targetCol with
    | none, _ => rfl
    | some r, none => rfl
    | some r, some c =>
      rcases h with h | h | h
      · rw [hr] at h; exact absurd h (by simp)
      · rw [hc] at h; exact absurd h (by simp)
      · rw [h]; simp
  · intro r c strc hr hc hcol hcne
    unfold processAdvisory
    rw [hr, hc]
    have htruthy : truthyStr j.recommendedColor = true := by
      rw [hcol]
      simp [truthyStr, hcne]
    rw [htruthy]
    simp only [if_true, hcol, Option.getD_some]

theorem filterMap_if_sublist {α β : Type} (l : List α) (f : α → β) (p : α → Bool) :
    List.Sublist (l.filterMap fun c => if p c then some (f c) else none) (l.map f) := by
  induction l with
  | nil => simp
  | cons c cs ih =>
    rw [List.filterMap_cons, List.map_cons]
    by_cases h : p c
    · rw [if_pos h]
      exact ih.cons₂ (f c)
    · rw [if_neg h]
      exact ih.cons (f c)

theorem flatMap_sublist {α β : Type} (l : List α) (g h : α → List β)
    (hgh : ∀ a ∈ l, List.Sublist (g a) (h a)) : List.Sublist (l.flatMap g) (l.flatMap h) := by
  induction l with
  | nil => simp
  | cons a as ih =>
    rw [List.flatMap_cons, List.flatMap_cons]
    exact List.Sublist.append (hgh a (by simp)) (ih fun x hx => hgh x (by simp [hx]))

theorem initGrid_ids (spawn : ℕ → ℕ → Bool) (colorAt : ℕ → ℕ → BubbleColor)
    (rowHeight w : Q) :
    ((initGrid spawn colorAt rowHeight w).map Bubble.id).Nodup := by
  have hform : (initGrid spawn colorAt rowHeight w).map Bubble.id =
      (List.range GRID_ROWS).flatMap fun r =>
        (List.range (colsInRow r)).filterMap fun c =>
          if spawn r c then some (cellId r c) else none := by
    unfold initGrid
    rw [List.map_flatMap]
    congr 1
    funext r
    rw [List.map_filterMap]
    congr 1
    funext c
    by_cases h : spawn r c
    · simp [h]
    · simp [h]
  rw [hform]
  have hfull : ((List.range GRID_ROWS).flatMap fun r =>
      (List.range (colsInRow r)).map (cellId r)).Nodup := by decide
  refine hfull.sublist ?_
  refine flatMap_sublist _ _ _ fun r _ => ?_
  exact filterMap_if_sublist _ _ _

theorem initGrid_mem (spawn : ℕ → ℕ → Bool) (colorAt : ℕ → ℕ → BubbleColor)
    (rowHeight w : Q) (b : Bubble) (hb : b ∈ initGrid spawn colorAt rowHeight w) :
    b.id = cellId b.row b.col ∧ b.col < colsInRow b.row ∧ b.row < GRID_ROWS := by
  unfold initGrid at hb
  simp only [List.mem_flatMap, List.mem_filterMap, List.mem_range] at hb
  obtain ⟨r, hr, c, hc, hsome⟩ := hb
  by_cases h : spawn r c
  · rw [if_pos h, Option.some_inj] at hsome
    subst hsome
    exact ⟨rfl, hc, hr⟩
  · rw [if_neg h] at hsome
    exact absurd hsome (by simp)

/-- Initialization always produces a field satisfying the invariant. -/
theorem initGrid_invariant (spawn : ℕ → ℕ → Bool) (colorAt : ℕ → ℕ → BubbleColor)
    (rowHeight w : Q) : cellInvariant (initGrid spawn colorAt rowHeight w) := by
  have hids := initGrid_ids spawn colorAt rowHeight w
  rw [List.Nodup, List.pairwise_map] at hids
  unfold cellInvariant
  refine List.Pairwise.imp_of_mem ?_ hids
  intro a b ha hb hne hact1 hact2 hrc
  obtain ⟨hida, hca, hra⟩ := initGrid_mem spawn colorAt rowHeight w a ha
  obtain ⟨hidb, hcb, hrb⟩ := initGrid_mem spawn colorAt rowHeight w b hb
  apply hne
  rw [hida, hidb, hrc.1, hrc.2]

/-- Placing at the snapped cell preserves the invariant whenever some
scanned cell is free. -/
theorem cellInvariant_place (F : List Bubble) (rowHeight w : Q) (p : Q × Q)
    (color : BubbleColor) (newId : ℕ) (hinv : cellInvariant F)
    (hfree : ∃ cell ∈ cellList, occupiedCell F cell.1 cell.2 = false) :
    cellInvariant (placeBubble F rowHeight w p color newId) := by
  obtain ⟨hcl, hfreecell, hpos, hmin⟩ := snapCell_spec F rowHeight w p hfree
  unfold placeBubble cellInvariant
  rw [List.pairwise_append]
  refine ⟨hinv, by simp, ?_⟩
  intro b1 hb1 b2 hb2 hact1 hact2 hrc
  have hb2e : b2 = ⟨newId, (snapCell F rowHeight w p).1, (snapCell F rowHeight w p).2.1,
      (snapCell F rowHeight w p).2.2.1, (snapCell F rowHeight w p).2.2.2, color, true⟩ := by
    simpa using hb2
  have hocc : occupiedCell F (snapCell F rowHeight w p).1 (snapCell F rowHeight w p).2.1 = true := by
    refine List.any_eq_true.mpr ⟨b1, hb1, ?_⟩
    have hrow : b1.row = (snapCell F rowHeight w p).1 := by rw [hrc.1, hb2e]
    have hcol : b1.col = (snapCell F rowHeight w p).2.1 := by rw [hrc.2, hb2e]
    simp [hact1, hrow, hcol]
  rw [hocc] at hfreecell
  exact absurd hfreecell (by simp)

/-- Deactivating any set of bubbles (by id) preserves the invariant. -/
theorem cellInvariant_deactivate (F : List Bubble) (ids : List ℕ)
    (hinv : cellInvariant F) :
    cellInvariant (F.map fun b => if b.id ∈ ids then { b with active := false } else b) := by
  unfold cellInvariant at hinv ⊢
  rw [List.pairwise_map]
  refine hinv.imp ?_
  intro a b h hact1 hact2 hrc
  by_cases ha : a.id ∈ ids
  · rw [if_pos ha] at hact1
    exact absurd hact1 (by simp)
  · by_cases hb : b.id ∈ ids
    · rw [if_pos hb] at hact2
      exact absurd hact2 (by simp)
    · rw [if_neg ha] at hact1 hrc
      rw [if_neg hb] at hact2 hrc
      exact h hact1 hact2 hrc

theorem colorPoints_even (c : BubbleColor) : 2 ∣ colorPoints c := by
  cases c <;> decide

/-! ## Claim theorems -/

/-- C3: the hex-adjacency relation is symmetric: for every pair of
bubbles, `isNeighbor(A, B) = isNeighbor(B, A)` under the parity rule
(rows differing by one always have opposite parity, which swaps the
`{0, 1}` and `{-1, 0}` column branches coherently). -/
theorem claim_C3 (a b : Bubble) : isNeighbor a b = isNeighbor b a := by
  unfold isNeighbor
  simp only [ne_eq, ite_not, Bool.if_true_left, beq_iff_eq]
  rw [Bool.eq_iff_iff]
  split_ifs <;> simp_all <;> omega

/-- C4: for every seed bubble (stored, active, in a field with distinct
ids), match-find returns exactly the connected component of same-color
active bubbles reachable from the seed via the adjacency rule, each
bubble at most once; in particular every returned bubble has the seed's
color. -/
theorem claim_C4 (F : List Bubble) (seed : Bubble)
    (hids : (F.map Bubble.id).Nodup) (hseed : seed ∈ F) (hact : seed.active = true) :
    (∀ b, b ∈ findMatches F seed ↔
        MatchReach F seed.color seed b ∧ b.color = seed.color) ∧
    ((findMatches F seed).map Bubble.id).Nodup :=
  findMatches_spec F seed hids hseed hact

theorem claim_C4_witness :
    ((matchField.map Bubble.id).Nodup ∧ testBubble 1 0 1 BubbleColor.red ∈ matchField ∧
      (testBubble 1 0 1 BubbleColor.red).active = true) ∧
    ((findMatches matchField (testBubble 1 0 1 BubbleColor.red)).map Bubble.id).Nodup :=
  ⟨⟨by decide, by decide, by decide⟩,
    (claim_C4 matchField (testBubble 1 0 1 BubbleColor.red) (by decide) (by decide)
      (by decide)).2⟩

/-- C1: when the newly placed bubble's same-color component (computed by
`findMatches`, shown here to coincide with adjacency-reachability) has
size ≥ 3, match resolution deactivates every member and adds exactly
`size × basePoints(color) × multiplier` to the score, with multiplier
`3/2` exactly when size > 3 and `1` otherwise. -/
theorem claim_C1 (F : List Bubble) (score : ℕ) (seed : Bubble)
    (hids : (F.map Bubble.id).Nodup) (hseed : seed ∈ F) (hact : seed.active = true)
    (hsize : 3 ≤ (findMatches F seed).length) :
    (∀ b, b ∈ findMatches F seed ↔
        MatchReach F seed.color seed b ∧ b.color = seed.color) ∧
    (∀ b ∈ (checkMatches F score seed).1,
        b.id ∈ (findMatches F seed).map Bubble.id → b.active = false) ∧
    (((checkMatches F score seed).2.1 : ℚ) =
      score + (findMatches F seed).length * colorPoints seed.color *
        (if 3 < (findMatches F seed).length then (3 : ℚ) / 2 else 1)) := by
  have heq : checkMatches F score seed =
      (F.map fun b =>
          if b.id ∈ (findMatches F seed).map Bubble.id
          then { b with active := false } else b,
        score +
          (if 3 < (findMatches F seed).length
           then (findMatches F seed).length * colorPoints seed.color * 3 / 2
           else (findMatches F seed).length * colorPoints seed.color),
        some (colorLabel seed.color)) := by
    unfold checkMatches
    rw [if_pos hsize]
  refine ⟨(findMatches_spec F seed hids hseed hact).1, ?_, ?_⟩
  · intro b hb hbid
    rw [heq] at hb
    obtain ⟨a, ha, hab⟩ := List.mem_map.mp hb
    by_cases hmem : a.id ∈ (findMatches F seed).map Bubble.id
    · rw [if_pos hmem] at hab
      rw [← hab]
    · rw [if_neg hmem] at hab
      subst hab
      exact absurd hbid hmem
  · rw [heq]
    by_cases h3 : 3 < (findMatches F seed).length
    · rw [if_pos h3, if_pos h3]
      have h2 : 2 ∣ (findMatches F seed).length * colorPoints seed.color * 3 :=
        Dvd.dvd.mul_right (Dvd.dvd.mul_left (colorPoints_even seed.color) _) 3
      rw [Nat.cast_add, Nat.cast_div h2 (by norm_num : ((2 : ℚ)) ≠ 0)]
      push_cast
      ring
    · rw [if_neg h3, if_neg h3]
      push_cast
      ring

theorem claim_C1_witness :
    ((matchField.map Bubble.id).Nodup ∧ testBubble 1 0 1 BubbleColor.red ∈ matchField ∧
      (testBubble 1 0 1 BubbleColor.red).active = true ∧
      3 ≤ (findMatches matchField (testBubble 1 0 1 BubbleColor.red)).length) ∧
    (((checkMatches matchField 0 (testBubble 1 0 1 BubbleColor.red)).2.1 : ℚ) =
      0 + (findMatches matchField (testBubble 1 0 1 BubbleColor.red)).length *
        colorPoints (testBubble 1 0 1 BubbleColor.red).color *
        (if 3 < (findMatches matchField (testBubble 1 0 1 BubbleColor.red)).length
         then (3 : ℚ) / 2 else 1)) :=
  ⟨⟨by decide, by decide, by decide, by decide⟩,
    (claim_C1 matchField 0 (testBubble 1 0 1 BubbleColor.red) (by decide) (by decide)
      (by decide) (by decide)).2.2⟩

/-- C5: when the newly placed bubble's same-color component (again equal
to the adjacency-reachability component) has size < 3, match resolution
is a no-op: field, score and celebration event are all unchanged. -/
theorem claim_C5 (F : List Bubble) (score : ℕ) (seed : Bubble)
    (hids : (F.map Bubble.id).Nodup) (hseed : seed ∈ F) (hact : seed.active = true)
    (hsize : (findMatches F seed).length < 3) :
    (∀ b, b ∈ findMatches F seed ↔
        MatchReach F seed.color seed b ∧ b.color = seed.color) ∧
    checkMatches F score seed = (F, score, none) := by
  refine ⟨(findMatches_spec F seed hids hseed hact).1, ?_⟩
  unfold checkMatches
  rw [if_neg (by omega)]

theorem claim_C5_witness :
    ((smallField.map Bubble.id).Nodup ∧ testBubble 1 0 1 BubbleColor.red ∈ smallField ∧
      (testBubble 1 0 1 BubbleColor.red).active = true ∧
      (findMatches smallField (testBubble 1 0 1 BubbleColor.red)).length < 3) ∧
    checkMatches smallField 7 (testBubble 1 0 1 BubbleColor.red) = (smallField, 7, none) :=
  ⟨⟨by decide, by decide, by decide, by decide⟩,
    (claim_C5 smallField 7 (testBubble 1 0 1 BubbleColor.red) (by decide) (by decide)
      (by decide) (by decide)).2⟩

/-- C2 (amended): whenever at least one scanned cell is unoccupied, the
nearest-empty-cell snap picks a scanned, unoccupied cell whose planar
position minimises the Euclidean distance to the projectile position
(distances compared via their squares). -/
theorem claim_C2 (F : List Bubble) (rowHeight w : Q) (p : Q × Q)
    (hfree : ∃ cell ∈ cellList, occupiedCell F cell.1 cell.2 = false) :
    (((snapCell F rowHeight w p).1, (snapCell F rowHeight w p).2.1) ∈ cellList) ∧
    occupiedCell F (snapCell F rowHeight w p).1 (snapCell F rowHeight w p).2.1 = false ∧
    (∀ cell ∈ cellList, occupiedCell F cell.1 cell.2 = false →
      (distSq p (getBubblePos rowHeight w (snapCell F rowHeight w p).1
        (snapCell F rowHeight w p).2.1)).toRat ≤
      (distSq p (getBubblePos rowHeight w cell.1 cell.2)).toRat) := by
  obtain ⟨h1, h2, h3, h4⟩ := snapCell_spec F rowHeight w p hfree
  exact ⟨h1, h2, h4⟩

theorem claim_C2_witness :
    (∃ cell ∈ cellList, occupiedCell [] cell.1 cell.2 = false) ∧
    occupiedCell []
      (snapCell [] (Q.ofNat 62) (Q.ofNat 1252) (Q.ofNat 0, Q.ofNat 0)).1
      (snapCell [] (Q.ofNat 62) (Q.ofNat 1252) (Q.ofNat 0, Q.ofNat 0)).2.1 = false :=
  ⟨by decide,
    (claim_C2 [] (Q.ofNat 62) (Q.ofNat 1252) (Q.ofNat 0, Q.ofNat 0) (by decide)).2.1⟩

set_option maxRecDepth 8192 in
/-- C2 counterexample: on a field with every scanned cell occupied, the
snap falls back to its initial `(0, 0)` accumulator and selects an
occupied cell, so the unconditional claim fails. -/
theorem claim_C2_counterexample :
    occupiedCell fullField
      (snapCell fullField (Q.ofNat 62) (Q.ofNat 1252) (Q.ofNat 0, Q.ofNat 0)).1
      (snapCell fullField (Q.ofNat 62) (Q.ofNat 1252) (Q.ofNat 0, Q.ofNat 0)).2.1 = true := by
  decide

/-- C9 (amended): the no-two-active-bubbles-share-a-cell invariant holds
after grid initialization (for every random draw), is preserved by shot
placement provided some scanned cell is free, and is preserved by
match-resolution deactivation. -/
theorem claim_C9 :
    (∀ (spawn : ℕ → ℕ → Bool) (colorAt : ℕ → ℕ → BubbleColor) (rowHeight w : Q),
      cellInvariant (initGrid spawn colorAt rowHeight w)) ∧
    (∀ (F : List Bubble) (rowHeight w : Q) (p : Q × Q) (color : BubbleColor) (newId : ℕ),
      cellInvariant F → (∃ cell ∈ cellList, occupiedCell F cell.1 cell.2 = false) →
      cellInvariant (placeBubble F rowHeight w p color newId)) ∧
    (∀ (F : List Bubble) (score : ℕ) (seed : Bubble),
      cellInvariant F → cellInvariant (checkMatches F score seed).1) := by
  refine ⟨initGrid_invariant, cellInvariant_place, ?_⟩
  intro F score seed hinv
  unfold checkMatches
  by_cases h : 3 ≤ (findMatches F seed).length
  · rw [if_pos h]
    exact cellInvariant_deactivate F _ hinv
  · rw [if_neg h]
    exact hinv

theorem claim_C9_witness :
    (cellInvariant [testBubble 0 0 0 BubbleColor.red] ∧
      (∃ cell ∈ cellList, occupiedCell [testBubble 0 0 0 BubbleColor.red] cell.1 cell.2 =
        false)) ∧
    cellInvariant (placeBubble [testBubble 0 0 0 BubbleColor.red] (Q.ofNat 62)
      (Q.ofNat 1252) (Q.ofNat 0, Q.ofNat 0) BubbleColor.red 777) :=
  ⟨⟨by decide, by decide⟩,
    claim_C9.2.1 [testBubble 0 0 0 BubbleColor.red] (Q.ofNat 62) (Q.ofNat 1252)
      (Q.ofNat 0, Q.ofNat 0) BubbleColor.red 777 (by decide) (by decide)⟩

set_option maxRecDepth 8192 in
/-- C9 counterexample: on the all-occupied field the invariant holds, but
placing a shot (which then snaps to the occupied default cell `(0,0)`)
breaks it, so preservation without the free-cell proviso fails. -/
theorem claim_C9_counterexample :
    cellInvariant fullField ∧
    ¬ cellInvariant (placeBubble fullField (Q.ofNat 62) (Q.ofNat 1252)
        (Q.ofNat 0, Q.ofNat 0) BubbleColor.red 9999) := by
  constructor
  · decide
  · decide

/-- C10: when the anchor-to-target distance fits in at most 3 sample
steps (`ceil(distance / (RADIUS/2)) ≤ 3`), the line-of-sight loop samples
no point at all and reports the path clear, whatever the field holds. -/
theorem claim_C10 (target : Bubble) (anchor : Q × Q) (F : List Bubble)
    (hsteps : sampleSteps (distSq anchor (target.x, target.y)) ≤ 3) :
    samplePoints anchor (target.x, target.y) = [] ∧
    isPathClear target anchor F = true := by
  have hempty : samplePoints anchor (target.x, target.y) = [] := by
    unfold samplePoints
    have h0 : sampleSteps (distSq anchor (target.x, target.y)) - 3 = 0 := by omega
    rw [h0]
    rfl
  refine ⟨hempty, ?_⟩
  unfold isPathClear
  rw [hempty]
  rfl

theorem claim_C10_witness :
    (sampleSteps (distSq (Q.ofNat 0, Q.ofNat 0) (losTarget.x, losTarget.y)) ≤ 3) ∧
    (samplePoints (Q.ofNat 0, Q.ofNat 0) (losTarget.x, losTarget.y) = [] ∧
      isPathClear losTarget (Q.ofNat 0, Q.ofNat 0) [losTarget, losBlocker] = true) :=
  ⟨by decide,
    claim_C10 losTarget (Q.ofNat 0, Q.ofNat 0) [losTarget, losBlocker] (by decide)⟩

/-- C8 (amended): the clear/blocked verdict is exactly "no sampled point
within `1.8 × RADIUS` of another active bubble"; the step count is the
least `n` with `distance ≤ (RADIUS/2) · n`; and a blocker exactly at the
segment midpoint forces a blocked verdict provided the loop samples at
all (`steps ≥ 4`) — without that proviso the midpoint statement fails
(see the counterexample). -/
theorem claim_C8 :
    (∀ (target : Bubble) (anchor : Q × Q) (F : List Bubble),
      isPathClear target anchor F = true ↔
        ∀ pt ∈ samplePoints anchor (target.x, target.y), ∀ b ∈ F,
          b.active = true → b.id ≠ target.id →
          ¬ ((distSq pt (b.x, b.y)).toRat < ((324 : ℚ) / 5) ^ 2)) ∧
    (∀ d2 : Q, Q.le d2 (Q.ofNat (324 * (sampleSteps d2 * sampleSteps d2))) ∧
      ∀ m, m < sampleSteps d2 → ¬ Q.le d2 (Q.ofNat (324 * (m * m)))) ∧
    (∀ (target : Bubble) (anchor : Q × Q) (F : List Bubble) (blocker : Bubble),
      blocker ∈ F → blocker.active = true → blocker.id ≠ target.id →
      (Q.ofNat 2 * blocker.x - (anchor.1 + target.x)).n = 0 →
      (Q.ofNat 2 * blocker.y - (anchor.2 + target.y)).n = 0 →
      4 ≤ sampleSteps (distSq anchor (target.x, target.y)) →
      isPathClear target anchor F = false) :=
  ⟨isPathClear_iff, sampleSteps_spec,
    fun t a F bl h1 h2 h3 h4 h5 h6 => midpoint_blocker_blocks t a F bl h1 h2 h3 h4 h5 h6⟩

theorem claim_C8_witness :
    (losBlockerFar ∈ [losTargetFar, losBlockerFar] ∧ losBlockerFar.active = true ∧
      losBlockerFar.id ≠ losTargetFar.id ∧
      (Q.ofNat 2 * losBlockerFar.x - ((Q.ofNat 0, Q.ofNat 0).1 + losTargetFar.x)).n = 0 ∧
      (Q.ofNat 2 * losBlockerFar.y - ((Q.ofNat 0, Q.ofNat 0).2 + losTargetFar.y)).n = 0 ∧
      4 ≤ sampleSteps (distSq (Q.ofNat 0, Q.ofNat 0) (losTargetFar.x, losTargetFar.y))) ∧
    isPathClear losTargetFar (Q.ofNat 0, Q.ofNat 0) [losTargetFar, losBlockerFar] = false :=
  ⟨⟨by decide, by decide, by decide, by decide, by decide, by decide⟩,
    claim_C8.2.2 losTargetFar (Q.ofNat 0, Q.ofNat 0) [losTargetFar, losBlockerFar]
      losBlockerFar (by decide) (by decide) (by decide) (by decide) (by decide) (by decide)⟩

/-- C8 counterexample: for the short shot the blocker sits exactly at the
segment midpoint, is active and distinct from the target, yet the path is
reported clear — the claim's unconditional midpoint statement fails. -/
theorem claim_C8_counterexample :
    losBlocker ∈ [losTarget, losBlocker] ∧ losBlocker.active = true ∧
    losBlocker.id ≠ losTarget.id ∧
    (Q.ofNat 2 * losBlocker.x - ((Q.ofNat 0, Q.ofNat 0).1 + losTarget.x)).n = 0 ∧
    (Q.ofNat 2 * losBlocker.y - ((Q.ofNat 0, Q.ofNat 0).2 + losTarget.y)).n = 0 ∧
    isPathClear losTarget (Q.ofNat 0, Q.ofNat 0) [losTarget, losBlocker] = true :=
  ⟨by decide, by decide, by decide, by decide, by decide, by decide⟩

/-- C6: on a non-empty candidate list the local fallback heuristic picks
a candidate of maximal `clusterSize × pointsPerBubble`, breaking ties by
the smaller row, and builds its hint from that candidate. -/
theorem claim_C6 (msg : String) (targets : List TargetCandidate) (hne : targets ≠ []) :
    ∃ best ∈ targets,
      getBestLocalTarget msg targets =
        { message := "[" ++ (advisoryLabel best.color).getD best.color.toUpper ++
            "]를 맞춰보세요!",
          rationale := some "Selected based on highest potential cluster score available locally.",
          targetRow := some best.row, targetCol := some best.col,
          recommendedColor := some best.color } ∧
      (∀ c ∈ targets, c.size * c.pointsPerBubble ≤ best.size * best.pointsPerBubble) ∧
      (∀ c ∈ targets, c.size * c.pointsPerBubble = best.size * best.pointsPerBubble →
        best.row ≤ c.row) :=
  getBestLocalTarget_spec msg targets hne

theorem claim_C6_witness :
    ([tcHigh, tcLow] ≠ ([] : List TargetCandidate)) ∧
    (∃ best ∈ [tcHigh, tcLow],
      getBestLocalTarget ("fallback") [tcHigh, tcLow] =
        { message := "[" ++ (advisoryLabel best.color).getD best.color.toUpper ++
            "]를 맞춰보세요!",
          rationale := some "Selected based on highest potential cluster score available locally.",
          targetRow := some best.row, targetCol := some best.col,
          recommendedColor := some best.color } ∧
      (∀ c ∈ [tcHigh, tcLow], c.size * c.pointsPerBubble ≤ best.size * best.pointsPerBubble) ∧
      (∀ c ∈ [tcHigh, tcLow], c.size * c.pointsPerBubble = best.size * best.pointsPerBubble →
        best.row ≤ c.row)) :=
  ⟨by decide, claim_C6 ("fallback") [tcHigh, tcLow] (by decide)⟩

/-- C7 (amended): the advisory response is validated only for numeric
coordinates and the presence of a recommended color: a non-numeric
`targetRow` (or `targetCol`, or a missing/empty color) makes the local
fallback fire, and an accepted response's color is lowercased but never
checked against the color enumeration. -/
theorem claim_C7 (j : AdvisoryJson) (targets : List TargetCandidate) :
    ((jsToNumber j.targetRow = none ∨ jsToNumber j.targetCol = none ∨
        truthyStr j.recommendedColor = false) →
      processAdvisory j targets = getBestLocalTarget ("AI가 위치를 잘못 알려줬어요.") targets) ∧
    (∀ r c strc, jsToNumber j.targetRow = some r → jsToNumber j.targetCol = some c →
      j.recommendedColor = some strc → strc ≠ "" →
      processAdvisory j targets =
        { message := jsOr j.message ("좋은 자리가 있어요!"), rationale := j.rationale,
          targetRow := some r, targetCol := some c,
          recommendedColor := some (strLower strc) }) :=
  processAdvisory_spec j targets

theorem claim_C7_witness :
    (jsToNumber abcJson.targetRow = none) ∧
    processAdvisory abcJson [] = getBestLocalTarget ("AI가 위치를 잘못 알려줬어요.") [] :=
  ⟨by decide, (claim_C7 abcJson []).1 (Or.inl (by decide))⟩

/-- C7 counterexample: a response with numeric coordinates and the
unknown color `"PINK"` is accepted and used (its hint differs from the
fallback and carries `recommendedColor = "pink"`), so the claim that no
out-of-enumeration color is ever used fails. -/
theorem claim_C7_counterexample :
    (processAdvisory pinkJson []).recommendedColor = some "pink" ∧
    "pink" ∉ colorNames ∧
    processAdvisory pinkJson [] ≠ getBestLocalTarget ("AI가 위치를 잘못 알려줬어요.") [] :=
  ⟨by decide, by decide, by decide⟩

end Goosl
